import Mathlib

/-
  Verification of the favicon palette extraction and tab-coloring pipeline of
  vivaldi-color-tabs.  The repository consists of three near-identical scripts:

  * src/color_tabs.js            — favicon-based variant with a fixed saturation
                                   constant and no internal-page handling;
  * src/unnamed/part_000         — theme-driven variant: reads the current theme
                                   (accentFromPage, transparencyTabs, accentOnWindow,
                                   colorAccentBg, accentSaturationLimit), special-cases
                                   internal pages, and resets tab styles when coloring
                                   is not allowed;
  * src/unnamed/part_001         — theme-driven variant without the reset path and
                                   with a defective #isInternalPage helper.

  The palette extractor #getPalette is byte-identical across the three variants and is
  embedded once below.  The chroma.js color library is an external collaborator: its
  operations (construct from RGB, get and set HSL saturation, luminance, css
  serialization) are abstracted as a `ChromaOps` record over an arbitrary color type,
  except where a claim is about the exact value fed to one of these operations, in
  which case the HSL saturation component is modelled directly as a rational.
-/

/- Pixel of the decoded RGBA buffer returned by getImageData: four channels, each
   0..255.  #getPalette reads offsets 0,1,2 of each 4-byte group and never reads
   offset 3 (alpha). -/
structure Pixel where
  red : Nat
  green : Nat
  blue : Nat
  alpha : Nat
deriving DecidableEq, Repr

/- An exact (R,G,B) triple, the element type of the returned palette
   (topColors.map(color => [color[0], color[1], color[2]])). -/
structure RGB where
  red : Nat
  green : Nat
  blue : Nat
deriving DecidableEq, Repr

def rgbOf (p : Pixel) : RGB :=
  ⟨p.red, p.green, p.blue⟩

/- The pixel filter of #getPalette: the loop body runs only under
   !(red === 0 || red > 240 && green > 240 && blue > 240), so a pixel is skipped
   exactly when its red channel is 0 or all three channels exceed 240. -/
def skipPixel (p : Pixel) : Bool :=
  decide (p.red = 0 ∨ (240 < p.red ∧ 240 < p.green ∧ 240 < p.blue))

/- One accumulator entry of #getPalette: [red, green, blue, count]. -/
structure PaletteEntry where
  red : Nat
  green : Nat
  blue : Nat
  count : Nat
deriving DecidableEq, Repr

def entryColor (e : PaletteEntry) : RGB :=
  ⟨e.red, e.green, e.blue⟩

/- The inner search of #getPalette: red === c[0] && green === c[1] && blue === c[2]. -/
def matchesEntry (p : Pixel) (e : PaletteEntry) : Bool :=
  decide (p.red = e.red ∧ p.green = e.green ∧ p.blue = e.blue)

/- Processing of one non-skipped pixel: the first entry with a matching color has its
   count incremented; if no entry matches, [red, green, blue, 1] is pushed at the end. -/
def incrementFirst (p : Pixel) : List PaletteEntry → List PaletteEntry
  | [] => [⟨p.red, p.green, p.blue, 1⟩]
  | e :: rest =>
    if matchesEntry p e then { e with count := e.count + 1 } :: rest
    else e :: incrementFirst p rest

/- One iteration of the pixel loop of #getPalette. -/
def stepPixel (acc : List PaletteEntry) (p : Pixel) : List PaletteEntry :=
  if skipPixel p then acc else incrementFirst p acc

/- The accumulated colorPalette after the pixel loop of #getPalette. -/
def countColors (pixels : List Pixel) : List PaletteEntry :=
  pixels.foldl stepPixel []

/- colorPalette.sort((a, b) => b[3] - a[3]): ECMAScript requires Array.prototype.sort
   to be stable, and a stable sort by a total preorder has a unique result, so the
   stable insertion sort by descending count is the exact model. -/
def sortByCountDesc (l : List PaletteEntry) : List PaletteEntry :=
  List.insertionSort (fun a b => b.count ≤ a.count) l

/- #getPalette: count qualifying pixels, sort by count descending, keep the first
   min(10, length) entries, strip the counts. -/
def getPalette (pixels : List Pixel) : List RGB :=
  (((sortByCountDesc (countColors pixels)).take 10).map entryColor)

/- Number of qualifying (non-skipped) pixels of the buffer carrying a given color. -/
def colorFreq (pixels : List Pixel) (c : RGB) : Nat :=
  (pixels.filter (fun p => !skipPixel p && decide (rgbOf p = c))).length

/- Total count held by the entries of an accumulator that carry a given color. -/
def entryCountOf (acc : List PaletteEntry) (c : RGB) : Nat :=
  ((acc.filter (fun e => decide (entryColor e = c))).map PaletteEntry.count).sum

/- Sum of all counts of an accumulator. -/
def sumCounts (acc : List PaletteEntry) : Nat :=
  (acc.map PaletteEntry.count).sum

/- Index of the first qualifying pixel of the buffer carrying a given color: the
   scan position at which that color is first encountered. -/
def firstIdx (pixels : List Pixel) (c : RGB) : Nat :=
  pixels.findIdx (fun p => !skipPixel p && decide (rgbOf p = c))

/- Number of distinct colors among the qualifying pixels of the buffer. -/
def numDistinct (pixels : List Pixel) : Nat :=
  ((pixels.filter (fun p => !skipPixel p)).map rgbOf).toFinset.card

instance : IsTotal PaletteEntry (fun a b => b.count ≤ a.count) :=
  ⟨fun a b => Nat.le_total b.count a.count⟩

instance : IsTrans PaletteEntry (fun a b => b.count ≤ a.count) :=
  ⟨fun _ _ _ hab hbc => Nat.le_trans hbc hab⟩

/- The tab-coloring pipeline around the extractor. -/

/- JS String.prototype.startsWith, modelled on the character sequence of the
   string. -/
def listStartsWith : List Char → List Char → Bool
  | _, [] => true
  | [], _ :: _ => false
  | c :: cs, d :: ds => if c = d then listStartsWith cs ds else false

def startsWithModel (s pat : String) : Bool :=
  listStartsWith s.data pat.data

/- The INTERNAL_PAGES constant shared by part_000 and part_001. -/
def INTERNAL_PAGES : List String :=
  ["chrome://", "vivaldi://", "devtools://", "chrome-extension://"]

/- part_000 #isInternalPage: INTERNAL_PAGES.some((p) => url.startsWith(p)). -/
def isInternalPage (url : String) : Bool :=
  INTERNAL_PAGES.any (fun pat => startsWithModel url pat)

/- part_001 #isInternalPage: its body evaluates the same INTERNAL_PAGES.some(...)
   expression but has no return statement, so every call evaluates to undefined,
   which is falsy at its only call site (if (!this.#isInternalPage(chromeTab.url))).
   The computed-and-discarded expression is kept visible here. -/
def isInternalPage001 (url : String) : Bool :=
  let _discarded := INTERNAL_PAGES.any (fun pat => startsWithModel url pat)
  false

/- External chroma.js operations used by the scripts, abstracted over the color
   representation: chroma(rgbTriple), chroma(cssString), .get('hsl.s'),
   .set('hsl.s', v), .luminance(), .css(), and the constants chroma('#000') and
   chroma('#FFF'). -/
structure ChromaOps (C : Type) where
  fromRGB : RGB → C
  fromCss : String → C
  getSatur : C → ℚ
  setSatur : C → ℚ → C
  luminance : C → ℚ
  cssOf : C → String
  black : C
  white : C

/- One tab strip entry as consumed by #setTabColor: the resolved page URL of its
   browser tab, its active state, and the decoded bitmap of its favicon img element
   when one is present. -/
structure TabInput where
  url : String
  active : Bool
  image : Option (List Pixel)
deriving DecidableEq, Repr

/- The observable styling outcome of one #setTabColor call.  A style write is
   Option (Option String): none = property untouched, some none = property assigned
   null (cleared back to inherited), some (some s) = property assigned the value s.
   accentSet records the (background, foreground, isBright) triple handed to
   #setAccentColors when the shared accent custom properties are written. -/
structure TabEffect (C : Type) where
  accentSet : Option (C × C × Bool)
  backgroundColor : Option (Option String)
  textColor : Option (Option String)
deriving DecidableEq, Repr

/- Line `const isBright = colorAccentBg.luminance() > 0.4` (0.4 = 2/5). -/
def isBrightOf (lum : ℚ) : Bool :=
  decide (2/5 < lum)

def BLACK : RGB := ⟨0, 0, 0⟩

def WHITE : RGB := ⟨255, 255, 255⟩

/- Line `const colorAccentFg = isBright ? BLACK : WHITE` with BLACK = chroma('#000')
   and WHITE = chroma('#FFF'), at the RGB level. -/
def foregroundOf (lum : ℚ) : RGB :=
  if isBrightOf lum then BLACK else WHITE

/- part_000 #setTabColor lines 80-88: outside internal pages, a present favicon
   whose palette is non-empty replaces colorAccentBg by chroma(palette[0]); in every
   other case the incoming theme accent is kept unchanged. -/
def resolveBaseAccent {C : Type} (ops : ChromaOps C) (internal : Bool)
    (image : Option (List Pixel)) (colorAccentBg : C) : C :=
  if !internal then
    match image with
    | some bmp =>
      match getPalette bmp with
      | c :: _ => ops.fromRGB c
      | [] => colorAccentBg
    | none => colorAccentBg
  else colorAccentBg

/- part_000 #setTabColor: resolve the base accent, remap its saturation by the
   theme's accentSaturationLimit, classify brightness, then write styles by page
   kind and active state. -/
def setTabColor000 {C : Type} (ops : ChromaOps C) (tab : TabInput)
    (accentOnWindow : Bool) (colorAccentBg0 : C) (accentSaturationLimit : ℚ) :
    TabEffect C :=
  let internal := isInternalPage tab.url
  let base := resolveBaseAccent ops internal tab.image colorAccentBg0
  let saturation := ops.getSatur base
  let colorAccentBg := ops.setSatur base (saturation * accentSaturationLimit)
  let isBright := isBrightOf (ops.luminance colorAccentBg)
  let colorAccentFg := if isBright then ops.black else ops.white
  if internal then
    if tab.active then
      { accentSet := some (colorAccentBg, colorAccentFg, isBright)
        backgroundColor :=
          some (some (if accentOnWindow then "var(--colorBg)" else "var(--colorAccentBg)"))
        textColor := some (some "var(--colorFg)") }
    else
      { accentSet := none
        backgroundColor := some (some "var(--colorBgDark)")
        textColor := some (some "var(--colorFg)") }
  else if tab.active then
    { accentSet := some (colorAccentBg, colorAccentFg, isBright)
      backgroundColor :=
        if accentOnWindow then
          some (some (if tab.active then "var(--colorBg)" else "var(--colorBgDark)"))
        else none
      textColor := if accentOnWindow then some (some "var(--colorFg)") else none }
  else
    { accentSet := none
      backgroundColor := some (some (ops.cssOf colorAccentBg))
      textColor := some (some (ops.cssOf colorAccentFg)) }

/- part_000 #resetTabColor: both style properties are assigned null, which clears
   them back to inherited styling. -/
def resetTabColor {C : Type} : TabEffect C :=
  { accentSet := none, backgroundColor := some none, textColor := some none }

/- The theme snapshot consumed by part_000 #colorTabs. -/
structure Theme where
  accentFromPage : Bool
  transparencyTabs : Bool
  accentOnWindow : Bool
  colorAccentBg : String
  accentSaturationLimit : ℚ
deriving DecidableEq, Repr

/- part_000 #colorTabs: tabColorAllowed = accentFromPage && !transparencyTabs; when
   it holds every tab is styled, otherwise every tab is reset. -/
def colorTabs000 {C : Type} (ops : ChromaOps C) (theme : Theme)
    (tabs : List TabInput) : List (TabEffect C) :=
  let tabColorAllowed := theme.accentFromPage && !theme.transparencyTabs
  if tabColorAllowed then
    tabs.map (fun tab =>
      setTabColor000 ops tab theme.accentOnWindow (ops.fromCss theme.colorAccentBg)
        theme.accentSaturationLimit)
  else
    tabs.map (fun _ => resetTabColor)

/- src/color_tabs.js #setTabColor: when no favicon img exists the fallback color is
   the value of the --colorBg custom property of the browser root; when the img
   exists but its palette is empty, the method returns early and the tab is skipped
   (modelled as none); the saturation is set to the constant SATURATION = 0.5. -/
def setTabColorJS {C : Type} (ops : ChromaOps C) (tab : TabInput) (colorBgVar : C) :
    Option (TabEffect C) :=
  let bgOpt : Option C :=
    match tab.image with
    | some bmp =>
      match getPalette bmp with
      | c :: _ => some (ops.fromRGB c)
      | [] => none
    | none => some colorBgVar
  match bgOpt with
  | none => none
  | some bg0 =>
    let bgColor := ops.setSatur bg0 (1/2)
    let isBright := isBrightOf (ops.luminance bgColor)
    let fgColor := if isBright then ops.black else ops.white
    some (if tab.active then
      { accentSet := some (bgColor, fgColor, isBright)
        backgroundColor := none
        textColor := none }
    else
      { accentSet := none
        backgroundColor := some (some (ops.cssOf bgColor))
        textColor := some (some (ops.cssOf fgColor)) })

/- src/unnamed/part_001 #setTabColor: starts from the theme accent, consults the
   defective isInternalPage001 (always falsy), returns early when the palette of a
   present favicon is empty, and remaps saturation by the theme limit. -/
def setTabColor001 {C : Type} (ops : ChromaOps C) (tab : TabInput)
    (colorAccentBg0 : C) (accentSaturationLimit : ℚ) : Option (TabEffect C) :=
  let internal := isInternalPage001 tab.url
  let bgOpt : Option C :=
    if !internal then
      match tab.image with
      | some bmp =>
        match getPalette bmp with
        | c :: _ => some (ops.fromRGB c)
        | [] => none
      | none => some colorAccentBg0
    else some colorAccentBg0
  match bgOpt with
  | none => none
  | some base =>
    let colorAccentBg := ops.setSatur base (ops.getSatur base * accentSaturationLimit)
    let isBright := isBrightOf (ops.luminance colorAccentBg)
    let fgColor := if isBright then ops.black else ops.white
    some (if tab.active then
      { accentSet := some (colorAccentBg, fgColor, isBright)
        backgroundColor := none
        textColor := none }
    else
      { accentSet := none
        backgroundColor := some (some (ops.cssOf colorAccentBg))
        textColor := some (some (ops.cssOf fgColor)) })

/- A concrete executable instantiation of the external color operations, used to
   evaluate the pipeline at specific inputs: a color carries a saturation, a
   luminance and a serialization tag. -/
structure SimpleColor where
  satur : ℚ
  lum : ℚ
  tag : String
deriving DecidableEq, Repr

def simpleOps : ChromaOps SimpleColor :=
  { fromRGB := fun c =>
      ⟨1, (c.red : ℚ),
        toString c.red ++ "," ++ toString c.green ++ "," ++ toString c.blue⟩
    fromCss := fun s => ⟨1, 0, s⟩
    getSatur := fun c => c.satur
    setSatur := fun c s => { c with satur := s }
    luminance := fun c => c.lum
    cssOf := fun c => c.tag
    black := ⟨0, 0, "#000"⟩
    white := ⟨0, 1, "#FFF"⟩ }

/- HSL-component model for the saturation remap claims: chroma's .get('hsl.s') reads
   and .set('hsl.s', v) writes the saturation component of the color. -/
structure HSL where
  hue : ℚ
  satur : ℚ
  lightness : ℚ
deriving DecidableEq, Repr

def getHslS (c : HSL) : ℚ := c.satur

def setHslS (c : HSL) (v : ℚ) : HSL := { c with satur := v }

/- part_000 lines 90-91 and part_001 line 79:
   colorAccentBg.set('hsl.s', colorAccentBg.get('hsl.s') * accentSaturationLimit). -/
def remapSaturation (c : HSL) (limit : ℚ) : HSL :=
  setHslS c (getHslS c * limit)

/- color_tabs.js line 71: bgColor.set('hsl.s', SATURATION), SATURATION = 0.5. -/
def SATURATION : ℚ := 1/2

def remapSaturationJS (c : HSL) : HSL :=
  setHslS c SATURATION

/- Basic lemmas about one pixel-processing step of the accumulator. -/

theorem matchesEntry_iff (p : Pixel) (e : PaletteEntry) :
    matchesEntry p e = true ↔ rgbOf p = entryColor e := by
  simp only [matchesEntry, decide_eq_true_eq, rgbOf, entryColor, RGB.mk.injEq]

theorem entryCountOf_cons (e : PaletteEntry) (acc : List PaletteEntry) (c : RGB) :
    entryCountOf (e :: acc) c =
      (if entryColor e = c then e.count else 0) + entryCountOf acc c := by
  simp only [entryCountOf, List.filter_cons]
  by_cases h : entryColor e = c
  · simp [h]
  · simp [h]

theorem entryCountOf_incrementFirst (p : Pixel) (c : RGB) :
    ∀ acc : List PaletteEntry,
      entryCountOf (incrementFirst p acc) c =
        entryCountOf acc c + (if rgbOf p = c then 1 else 0) := by
  intro acc
  induction acc with
  | nil =>
    simp only [incrementFirst, entryCountOf, List.filter_nil, List.map_nil, List.sum_nil,
      Nat.zero_add]
    by_cases h : rgbOf p = c
    · have hc : entryColor ⟨p.red, p.green, p.blue, 1⟩ = c := by rw [← h]; rfl
      simp [List.filter_cons, hc, h]
    · have hc : ¬ entryColor ⟨p.red, p.green, p.blue, 1⟩ = c := by
        intro hc
        exact h (by rw [← hc]; rfl)
      simp [List.filter_cons, hc, h]
  | cons e rest ih =>
    simp only [incrementFirst]
    by_cases hm : matchesEntry p e
    · have hcol : rgbOf p = entryColor e := (matchesEntry_iff p e).mp hm
      have hcol2 : entryColor { e with count := e.count + 1 } = entryColor e := rfl
      simp only [hm, if_true, entryCountOf_cons, hcol2]
      by_cases h : entryColor e = c
      · rw [← hcol] at h
        simp [h, ← hcol]
        omega
      · have h2 : ¬ rgbOf p = c := by rw [hcol]; exact h
        rw [hcol] at h2
        simp [h, h2, hcol]
    · simp only [hm, Bool.false_eq_true, if_false, entryCountOf_cons, ih]
      omega

theorem map_entryColor_incrementFirst (p : Pixel) :
    ∀ acc : List PaletteEntry,
      (incrementFirst p acc).map entryColor =
        if rgbOf p ∈ acc.map entryColor then acc.map entryColor
        else acc.map entryColor ++ [rgbOf p] := by
  intro acc
  induction acc with
  | nil => simp [incrementFirst, entryColor, rgbOf]
  | cons e rest ih =>
    simp only [incrementFirst]
    by_cases hm : matchesEntry p e
    · have hcol : rgbOf p = entryColor e := (matchesEntry_iff p e).mp hm
      have hcol2 : entryColor { e with count := e.count + 1 } = entryColor e := rfl
      simp [hm, hcol2, hcol]
    · have hcol : ¬ rgbOf p = entryColor e := fun h => hm ((matchesEntry_iff p e).mpr h)
      simp only [hm, Bool.false_eq_true, if_false, List.map_cons, ih, List.mem_cons]
      by_cases hmem : rgbOf p ∈ rest.map entryColor
      · simp [hmem, hcol]
      · simp [hmem, hcol]

theorem sumCounts_incrementFirst (p : Pixel) :
    ∀ acc : List PaletteEntry,
      sumCounts (incrementFirst p acc) = sumCounts acc + 1 := by
  intro acc
  induction acc with
  | nil => simp [incrementFirst, sumCounts]
  | cons e rest ih =>
    simp only [incrementFirst]
    by_cases hm : matchesEntry p e
    · simp [hm, sumCounts]
      omega
    · simp [hm, sumCounts] at ih ⊢
      omega

theorem counts_pos_incrementFirst (p : Pixel) :
    ∀ acc : List PaletteEntry, (∀ e ∈ acc, 1 ≤ e.count) →
      ∀ e ∈ incrementFirst p acc, 1 ≤ e.count := by
  intro acc
  induction acc with
  | nil =>
    intro _ e he
    simp only [incrementFirst, List.mem_singleton] at he
    subst he
    exact Nat.le_refl 1
  | cons f rest ih =>
    intro hall e he
    simp only [incrementFirst] at he
    by_cases hm : matchesEntry p f
    · simp only [hm, if_true, List.mem_cons] at he
      rcases he with rfl | he
      · simp
      · exact hall e (List.mem_cons_of_mem f he)
    · simp only [hm, Bool.false_eq_true, if_false, List.mem_cons] at he
      rcases he with rfl | he
      · exact hall e (List.mem_cons_self _ _)
      · exact ih (fun x hx => hall x (List.mem_cons_of_mem f hx)) e he

/- Invariants of the whole pixel loop, by induction on the buffer with a generalized
   accumulator. -/

theorem colorFreq_cons_skip (p : Pixel) (px : List Pixel) (c : RGB)
    (hs : skipPixel p = true) : colorFreq (p :: px) c = colorFreq px c := by
  simp [colorFreq, List.filter_cons, hs]

theorem colorFreq_cons_hit (p : Pixel) (px : List Pixel) (c : RGB)
    (hs : ¬ skipPixel p = true) (hc : rgbOf p = c) :
    colorFreq (p :: px) c = colorFreq px c + 1 := by
  simp [colorFreq, List.filter_cons, hs, hc]

theorem colorFreq_cons_miss (p : Pixel) (px : List Pixel) (c : RGB)
    (hc : ¬ rgbOf p = c) : colorFreq (p :: px) c = colorFreq px c := by
  simp [colorFreq, List.filter_cons, hc]

theorem entryCountOf_foldl (c : RGB) :
    ∀ (px : List Pixel) (acc : List PaletteEntry),
      entryCountOf (px.foldl stepPixel acc) c = entryCountOf acc c + colorFreq px c := by
  intro px
  induction px with
  | nil => intro acc; simp [colorFreq]
  | cons p rest ih =>
    intro acc
    simp only [List.foldl_cons, ih, stepPixel]
    by_cases hs : skipPixel p = true
    · rw [colorFreq_cons_skip p rest c hs]
      simp [hs]
    · rw [if_neg hs]
      rw [entryCountOf_incrementFirst]
      by_cases hc : rgbOf p = c
      · rw [colorFreq_cons_hit p rest c hs hc]
        simp [hc]
        omega
      · rw [colorFreq_cons_miss p rest c hc]
        simp [hc]

theorem entryCountOf_countColors (px : List Pixel) (c : RGB) :
    entryCountOf (countColors px) c = colorFreq px c := by
  have h := entryCountOf_foldl c px []
  simpa [countColors, entryCountOf] using h

theorem nodup_map_entryColor_foldl :
    ∀ (px : List Pixel) (acc : List PaletteEntry),
      (acc.map entryColor).Nodup → ((px.foldl stepPixel acc).map entryColor).Nodup := by
  intro px
  induction px with
  | nil => intro acc h; simpa using h
  | cons p rest ih =>
    intro acc h
    simp only [List.foldl_cons]
    apply ih
    simp only [stepPixel]
    by_cases hs : skipPixel p = true
    · simpa [hs] using h
    · rw [if_neg hs]
      rw [map_entryColor_incrementFirst]
      by_cases hmem : rgbOf p ∈ acc.map entryColor
      · simpa [hmem] using h
      · simp only [hmem, if_false]
        simp [List.nodup_append, h, hmem]

theorem nodup_map_entryColor_countColors (px : List Pixel) :
    ((countColors px).map entryColor).Nodup := by
  apply nodup_map_entryColor_foldl
  simp

theorem counts_pos_foldl :
    ∀ (px : List Pixel) (acc : List PaletteEntry),
      (∀ e ∈ acc, 1 ≤ e.count) → ∀ e ∈ px.foldl stepPixel acc, 1 ≤ e.count := by
  intro px
  induction px with
  | nil => intro acc h; simpa using h
  | cons p rest ih =>
    intro acc h
    simp only [List.foldl_cons]
    apply ih
    simp only [stepPixel]
    by_cases hs : skipPixel p = true
    · simpa [hs] using h
    · rw [if_neg hs]
      exact counts_pos_incrementFirst p acc h

theorem counts_pos_countColors (px : List Pixel) :
    ∀ e ∈ countColors px, 1 ≤ e.count := by
  apply counts_pos_foldl
  simp

theorem sumCounts_foldl :
    ∀ (px : List Pixel) (acc : List PaletteEntry),
      sumCounts (px.foldl stepPixel acc) =
        sumCounts acc + (px.filter (fun p => !skipPixel p)).length := by
  intro px
  induction px with
  | nil => intro acc; simp
  | cons p rest ih =>
    intro acc
    simp only [List.foldl_cons, ih, stepPixel, List.filter_cons]
    by_cases hs : skipPixel p = true
    · simp [hs]
    · rw [if_neg hs]
      rw [sumCounts_incrementFirst]
      simp [hs]
      omega

theorem sumCounts_countColors (px : List Pixel) :
    sumCounts (countColors px) = (px.filter (fun p => !skipPixel p)).length := by
  have h := sumCounts_foldl px []
  simpa [countColors, sumCounts] using h

theorem entryCountOf_eq_zero_of_not_mem (c : RGB) :
    ∀ acc : List PaletteEntry, c ∉ acc.map entryColor → entryCountOf acc c = 0 := by
  intro acc
  induction acc with
  | nil => intro _; simp [entryCountOf]
  | cons e rest ih =>
    intro h
    simp only [List.map_cons, List.mem_cons, not_or] at h
    rw [entryCountOf_cons]
    have hne : ¬ entryColor e = c := fun hc => h.1 hc.symm
    simp [hne, ih h.2]

theorem entryCountOf_of_nodup :
    ∀ acc : List PaletteEntry, (acc.map entryColor).Nodup →
      ∀ e ∈ acc, entryCountOf acc (entryColor e) = e.count := by
  intro acc
  induction acc with
  | nil => intro _ e he; cases he
  | cons f rest ih =>
    intro hnd e he
    simp only [List.map_cons, List.nodup_cons] at hnd
    rcases List.mem_cons.mp he with rfl | he
    · rw [entryCountOf_cons]
      rw [entryCountOf_eq_zero_of_not_mem _ _ hnd.1]
      simp
    · have hne : entryColor f ≠ entryColor e := by
        intro hc
        exact hnd.1 (hc ▸ List.mem_map_of_mem entryColor he)
      rw [entryCountOf_cons]
      simp only [hne, if_false]
      rw [ih hnd.2 e he]
      omega

theorem le_entryCountOf (c : RGB) :
    ∀ acc : List PaletteEntry, ∀ e ∈ acc, entryColor e = c → e.count ≤ entryCountOf acc c := by
  intro acc
  induction acc with
  | nil => intro e he; cases he
  | cons f rest ih =>
    intro e he hc
    rw [entryCountOf_cons]
    rcases List.mem_cons.mp he with rfl | he
    · simp [hc]
    · exact Nat.le_trans (ih e he hc) (Nat.le_add_left _ _)

theorem count_eq_colorFreq_of_mem (px : List Pixel) (e : PaletteEntry)
    (he : e ∈ countColors px) : e.count = colorFreq px (entryColor e) := by
  rw [← entryCountOf_countColors]
  exact (entryCountOf_of_nodup _ (nodup_map_entryColor_countColors px) e he).symm

theorem colorFreq_pos_iff (px : List Pixel) (c : RGB) :
    0 < colorFreq px c ↔ ∃ p ∈ px, ¬ skipPixel p = true ∧ rgbOf p = c := by
  unfold colorFreq
  rw [List.length_pos_iff_exists_mem]
  constructor
  · rintro ⟨p, hp⟩
    rcases List.mem_filter.mp hp with ⟨hmem, hpred⟩
    simp only [Bool.and_eq_true, Bool.not_eq_true', decide_eq_true_eq] at hpred
    exact ⟨p, hmem, by simp [hpred.1], hpred.2⟩
  · rintro ⟨p, hmem, hs, hc⟩
    refine ⟨p, List.mem_filter.mpr ⟨hmem, ?_⟩⟩
    simp only [Bool.and_eq_true, Bool.not_eq_true', decide_eq_true_eq]
    exact ⟨by simpa using hs, hc⟩

theorem mem_map_entryColor_countColors (px : List Pixel) (c : RGB) :
    c ∈ (countColors px).map entryColor ↔ 0 < colorFreq px c := by
  constructor
  · intro h
    rcases List.mem_map.mp h with ⟨e, he, hc⟩
    have h1 : 1 ≤ e.count := counts_pos_countColors px e he
    have h2 : e.count ≤ entryCountOf (countColors px) c := le_entryCountOf c _ e he hc
    rw [entryCountOf_countColors] at h2
    omega
  · intro h
    by_contra hmem
    rw [← entryCountOf_countColors] at h
    rw [entryCountOf_eq_zero_of_not_mem c _ hmem] at h
    exact Nat.lt_irrefl 0 h

/- Sortedness and stability of the sort step. -/

theorem sorted_sortByCountDesc (l : List PaletteEntry) :
    List.Sorted (fun a b => b.count ≤ a.count) (sortByCountDesc l) :=
  List.sorted_insertionSort _ l

theorem perm_sortByCountDesc (l : List PaletteEntry) :
    List.Perm (sortByCountDesc l) l :=
  List.perm_insertionSort _ l

theorem filter_orderedInsert_eq (a : PaletteEntry) (k : Nat) (ha : a.count = k) :
    ∀ l : List PaletteEntry,
      (List.orderedInsert (fun a b => b.count ≤ a.count) a l).filter
          (fun e => decide (e.count = k)) =
        a :: l.filter (fun e => decide (e.count = k)) := by
  intro l
  induction l with
  | nil => simp [List.orderedInsert, ha]
  | cons b l ih =>
    by_cases hr : b.count ≤ a.count
    · rw [List.orderedInsert, if_pos hr, List.filter_cons]
      simp [ha]
    · have hb : ¬ b.count = k := by omega
      rw [List.orderedInsert, if_neg hr, List.filter_cons]
      simp [hb, ih, List.filter_cons]

theorem filter_orderedInsert_ne (a : PaletteEntry) (k : Nat) (ha : ¬ a.count = k) :
    ∀ l : List PaletteEntry,
      (List.orderedInsert (fun a b => b.count ≤ a.count) a l).filter
          (fun e => decide (e.count = k)) =
        l.filter (fun e => decide (e.count = k)) := by
  intro l
  induction l with
  | nil => simp [List.orderedInsert, ha]
  | cons b l ih =>
    by_cases hr : b.count ≤ a.count
    · rw [List.orderedInsert, if_pos hr, List.filter_cons]
      simp [ha]
    · rw [List.orderedInsert, if_neg hr, List.filter_cons]
      simp [ih, List.filter_cons]

theorem filter_sortByCountDesc (k : Nat) :
    ∀ l : List PaletteEntry,
      (sortByCountDesc l).filter (fun e => decide (e.count = k)) =
        l.filter (fun e => decide (e.count = k)) := by
  intro l
  induction l with
  | nil => rfl
  | cons a l ih =>
    show (List.orderedInsert _ a (List.insertionSort _ l)).filter _ = _
    by_cases ha : a.count = k
    · rw [filter_orderedInsert_eq a k ha]
      rw [show List.insertionSort (fun a b => b.count ≤ a.count) l = sortByCountDesc l from rfl]
      rw [ih, List.filter_cons]
      simp [ha]
    · rw [filter_orderedInsert_ne a k ha]
      rw [show List.insertionSort (fun a b => b.count ≤ a.count) l = sortByCountDesc l from rfl]
      rw [ih, List.filter_cons]
      simp [ha]

/- The accumulator lists colors in order of first encounter: its color sequence is
   strictly increasing on the index of the first qualifying pixel with that color. -/

theorem pairwise_firstIdx_foldl :
    ∀ (l2 l1 : List Pixel) (acc : List PaletteEntry),
      (∀ c ∈ acc.map entryColor,
          ∃ p ∈ l1, (!skipPixel p && decide (rgbOf p = c)) = true) →
      (∀ c : RGB, (∃ p ∈ l1, (!skipPixel p && decide (rgbOf p = c)) = true) →
          c ∈ acc.map entryColor) →
      List.Pairwise (fun c d => firstIdx (l1 ++ l2) c < firstIdx (l1 ++ l2) d)
        (acc.map entryColor) →
      List.Pairwise (fun c d => firstIdx (l1 ++ l2) c < firstIdx (l1 ++ l2) d)
        ((l2.foldl stepPixel acc).map entryColor) := by
  intro l2
  induction l2 with
  | nil => intro l1 acc _ _ h3; simpa using h3
  | cons p l2 ih =>
    intro l1 acc h1 h2 h3
    have hre : l1 ++ p :: l2 = (l1 ++ [p]) ++ l2 := by simp
    simp only [List.foldl_cons]
    rw [hre] at h3 ⊢
    by_cases hs : skipPixel p = true
    · rw [show stepPixel acc p = acc from if_pos hs]
      apply ih (l1 ++ [p]) acc ?_ ?_ h3
      · intro c hc
        rcases h1 c hc with ⟨q, hq, hpred⟩
        exact ⟨q, List.mem_append_left _ hq, hpred⟩
      · intro c hc
        rcases hc with ⟨q, hq, hpred⟩
        rcases List.mem_append.mp hq with hq1 | hq1
        · exact h2 c ⟨q, hq1, hpred⟩
        · rcases List.mem_singleton.mp hq1 with rfl
          rw [Bool.and_eq_true, Bool.not_eq_true'] at hpred
          rw [hs] at hpred
          cases hpred.1
    · rw [show stepPixel acc p = incrementFirst p acc from if_neg hs]
      by_cases hmem : rgbOf p ∈ acc.map entryColor
      · have hcols : (incrementFirst p acc).map entryColor = acc.map entryColor := by
          rw [map_entryColor_incrementFirst]
          simp [hmem]
        apply ih (l1 ++ [p]) (incrementFirst p acc) ?_ ?_ ?_
        · intro c hc
          rw [hcols] at hc
          rcases h1 c hc with ⟨q, hq, hpred⟩
          exact ⟨q, List.mem_append_left _ hq, hpred⟩
        · intro c hc
          rw [hcols]
          rcases hc with ⟨q, hq, hpred⟩
          rcases List.mem_append.mp hq with hq1 | hq1
          · exact h2 c ⟨q, hq1, hpred⟩
          · rcases List.mem_singleton.mp hq1 with rfl
            rw [Bool.and_eq_true, decide_eq_true_eq] at hpred
            rw [← hpred.2]
            exact hmem
        · rw [hcols]
          exact h3
      · have hcols : (incrementFirst p acc).map entryColor =
            acc.map entryColor ++ [rgbOf p] := by
          rw [map_entryColor_incrementFirst]
          simp [hmem]
        apply ih (l1 ++ [p]) (incrementFirst p acc) ?_ ?_ ?_
        · intro c hc
          rw [hcols] at hc
          rcases List.mem_append.mp hc with hc1 | hc1
          · rcases h1 c hc1 with ⟨q, hq, hpred⟩
            exact ⟨q, List.mem_append_left _ hq, hpred⟩
          · rcases List.mem_singleton.mp hc1 with rfl
            refine ⟨p, List.mem_append_right _ (List.mem_singleton_self p), ?_⟩
            simp [hs]
        · intro c hc
          rw [hcols]
          rcases hc with ⟨q, hq, hpred⟩
          rcases List.mem_append.mp hq with hq1 | hq1
          · exact List.mem_append_left _ (h2 c ⟨q, hq1, hpred⟩)
          · rcases List.mem_singleton.mp hq1 with rfl
            rw [Bool.and_eq_true, decide_eq_true_eq] at hpred
            rw [← hpred.2]
            exact List.mem_append_right _ (List.mem_singleton_self _)
        · rw [hcols]
          rw [List.pairwise_append]
          refine ⟨h3, List.pairwise_singleton _ _, ?_⟩
          intro d hd c hc
          rcases List.mem_singleton.mp hc with rfl
          rcases h1 d hd with ⟨q, hq, hpred⟩
          have hdlt : firstIdx ((l1 ++ [p]) ++ l2) d < l1.length := by
            have hfound : l1.findIdx
                (fun r => !skipPixel r && decide (rgbOf r = d)) < l1.length :=
              List.findIdx_lt_length_of_exists ⟨q, hq, hpred⟩
            unfold firstIdx
            rw [List.append_assoc, List.findIdx_append]
            rw [if_pos hfound]
            exact hfound
          have hnotl1 : ∀ r ∈ l1,
              (!skipPixel r && decide (rgbOf r = rgbOf p)) = false := by
            intro r hr
            by_contra hcon
            rw [Bool.not_eq_false] at hcon
            exact hmem (h2 (rgbOf p) ⟨r, hr, hcon⟩)
          have hge : l1.length ≤ firstIdx ((l1 ++ [p]) ++ l2) (rgbOf p) := by
            unfold firstIdx
            rw [List.append_assoc, List.findIdx_append]
            have hlen : l1.findIdx
                (fun r => !skipPixel r && decide (rgbOf r = rgbOf p)) = l1.length :=
              List.findIdx_eq_length_of_false hnotl1
            rw [hlen]
            simp
          omega

theorem pairwise_firstIdx_countColors (px : List Pixel) :
    List.Pairwise (fun c d => firstIdx px c < firstIdx px d)
      ((countColors px).map entryColor) := by
  have h := pairwise_firstIdx_foldl px [] []
  simp only [List.map_nil, List.nil_append] at h
  exact h (by intro c hc; cases hc) (by rintro c ⟨q, hq, _⟩; cases hq) List.Pairwise.nil

/- Bridge lemmas between the accumulator and the returned palette. -/

theorem length_countColors (px : List Pixel) :
    (countColors px).length = numDistinct px := by
  have hnd := nodup_map_entryColor_countColors px
  have hset : ((countColors px).map entryColor).toFinset =
      ((px.filter (fun p => !skipPixel p)).map rgbOf).toFinset := by
    ext c
    simp only [List.mem_toFinset]
    rw [mem_map_entryColor_countColors, colorFreq_pos_iff]
    constructor
    · rintro ⟨p, hp, hs, hc⟩
      exact List.mem_map.mpr ⟨p, List.mem_filter.mpr ⟨hp, by simpa using hs⟩, hc⟩
    · intro h
      rcases List.mem_map.mp h with ⟨p, hp, hc⟩
      rcases List.mem_filter.mp hp with ⟨hp1, hp2⟩
      exact ⟨p, hp1, by simpa using hp2, hc⟩
  have h1 : ((countColors px).map entryColor).toFinset.card =
      ((countColors px).map entryColor).length := List.toFinset_card_of_nodup hnd
  calc (countColors px).length
      = ((countColors px).map entryColor).length := (List.length_map _ _).symm
    _ = ((countColors px).map entryColor).toFinset.card := h1.symm
    _ = numDistinct px := by rw [hset]; rfl

theorem foldl_of_all_skip :
    ∀ (px : List Pixel) (acc : List PaletteEntry),
      (∀ p ∈ px, skipPixel p = true) → px.foldl stepPixel acc = acc := by
  intro px
  induction px with
  | nil => intro acc _; rfl
  | cons p rest ih =>
    intro acc h
    simp only [List.foldl_cons, stepPixel, h p (List.mem_cons_self _ _), if_true]
    exact ih acc (fun q hq => h q (List.mem_cons_of_mem p hq))

theorem mem_getPalette_iff (px : List Pixel) (c : RGB) :
    c ∈ getPalette px → c ∈ (countColors px).map entryColor := by
  intro h
  unfold getPalette at h
  have hsub : List.Sublist (((sortByCountDesc (countColors px)).take 10).map entryColor)
      ((sortByCountDesc (countColors px)).map entryColor) :=
    (List.take_sublist _ _).map entryColor
  have h2 : c ∈ (sortByCountDesc (countColors px)).map entryColor := hsub.subset h
  exact (((perm_sortByCountDesc (countColors px)).map entryColor).mem_iff).mp h2

/-- C2: the palette extractor skips a pixel if and only if its red channel is
exactly 0 (regardless of green and blue) or all of its red, green and blue channels
exceed 240; every other pixel is counted — the counts accumulated over the buffer
total exactly the number of non-skipped pixels. -/
theorem extractor_skips_iff_sentinel_or_near_white :
    (∀ p : Pixel, skipPixel p = true ↔
        (p.red = 0 ∨ (240 < p.red ∧ 240 < p.green ∧ 240 < p.blue))) ∧
    (∀ px : List Pixel,
        sumCounts (countColors px) = (px.filter (fun p => !skipPixel p)).length) :=
  ⟨fun p => by simp [skipPixel], sumCounts_countColors⟩

/-- C3: getPalette returns at most 10 colors, ordered by descending frequency of the
qualifying pixels, and returns fewer than 10 exactly when the buffer has fewer
distinct qualifying colors: its length is min 10 (number of distinct qualifying
colors). -/
theorem getPalette_top10_sorted (px : List Pixel) :
    (getPalette px).length ≤ 10 ∧
    List.Pairwise (fun c d => colorFreq px d ≤ colorFreq px c) (getPalette px) ∧
    (getPalette px).length = min 10 (numDistinct px) := by
  have hlen : (getPalette px).length =
      min 10 (sortByCountDesc (countColors px)).length := by
    unfold getPalette
    rw [List.length_map, List.length_take]
  refine ⟨?_, ?_, ?_⟩
  · rw [hlen]; exact Nat.min_le_left _ _
  · have hsorted : List.Pairwise (fun a b : PaletteEntry => b.count ≤ a.count)
        (sortByCountDesc (countColors px)) := sorted_sortByCountDesc _
    have htake : List.Pairwise (fun a b : PaletteEntry => b.count ≤ a.count)
        ((sortByCountDesc (countColors px)).take 10) :=
      hsorted.sublist (List.take_sublist _ _)
    have hfreq : List.Pairwise
        (fun a b : PaletteEntry =>
          colorFreq px (entryColor b) ≤ colorFreq px (entryColor a))
        ((sortByCountDesc (countColors px)).take 10) := by
      refine htake.imp_of_mem ?_
      intro a b ha hb hr
      have hamem : a ∈ countColors px :=
        ((perm_sortByCountDesc _).mem_iff).mp ((List.take_sublist _ _).subset ha)
      have hbmem : b ∈ countColors px :=
        ((perm_sortByCountDesc _).mem_iff).mp ((List.take_sublist _ _).subset hb)
      rw [← count_eq_colorFreq_of_mem px a hamem, ← count_eq_colorFreq_of_mem px b hbmem]
      exact hr
    unfold getPalette
    rw [List.pairwise_map]
    exact hfreq
  · rw [hlen, (perm_sortByCountDesc (countColors px)).length_eq, length_countColors]

/-- C4: a bitmap in which every pixel is sentinel-transparent (red channel 0) or
near-white (all channels above 240) yields the empty palette. -/
theorem getPalette_empty_of_all_filtered (px : List Pixel)
    (h : ∀ p ∈ px, p.red = 0 ∨ (240 < p.red ∧ 240 < p.green ∧ 240 < p.blue)) :
    getPalette px = [] := by
  have hskip : ∀ p ∈ px, skipPixel p = true := by
    intro p hp
    simp [skipPixel, h p hp]
  have hcc : countColors px = [] := foldl_of_all_skip px [] hskip
  unfold getPalette
  rw [hcc]
  rfl

/-- Witness for C4 at a concrete two-pixel bitmap: one sentinel-transparent pixel and
one near-white pixel produce the empty palette. -/
theorem getPalette_empty_of_all_filtered_witness :
    getPalette [⟨0, 5, 5, 255⟩, ⟨250, 250, 250, 0⟩] = [] :=
  getPalette_empty_of_all_filtered _ (by decide)

/-- C9: the palette is a deterministic function of the pixel buffer in which colors of
equal frequency appear in the order their colors were first encountered during the
pixel scan: whenever c precedes d in the output and their frequencies are equal, the
first qualifying pixel carrying c occurs strictly earlier than the first qualifying
pixel carrying d. -/
theorem getPalette_stable_ties (px : List Pixel) :
    List.Pairwise
      (fun c d => colorFreq px c = colorFreq px d → firstIdx px c < firstIdx px d)
      (getPalette px) := by
  have hL : List.Pairwise
      (fun e f : PaletteEntry =>
        firstIdx px (entryColor e) < firstIdx px (entryColor f))
      (countColors px) := by
    have h0 := pairwise_firstIdx_countColors px
    rwa [List.pairwise_map] at h0
  have hS : List.Pairwise
      (fun e f : PaletteEntry =>
        colorFreq px (entryColor e) = colorFreq px (entryColor f) →
          firstIdx px (entryColor e) < firstIdx px (entryColor f))
      (sortByCountDesc (countColors px)) := by
    rw [List.pairwise_iff_forall_sublist]
    intro e f hsub hfreq
    have hemem : e ∈ countColors px :=
      ((perm_sortByCountDesc _).mem_iff).mp (hsub.subset (List.mem_cons_self _ _))
    have hfmem : f ∈ countColors px :=
      ((perm_sortByCountDesc _).mem_iff).mp
        (hsub.subset (List.mem_cons_of_mem _ (List.mem_singleton_self _)))
    have hcount : e.count = f.count := by
      rw [count_eq_colorFreq_of_mem px e hemem, count_eq_colorFreq_of_mem px f hfmem]
      exact hfreq
    have hfilter : List.Sublist [e, f]
        ((countColors px).filter (fun x => decide (x.count = e.count))) := by
      have h1 : [e, f].filter (fun x => decide (x.count = e.count)) = [e, f] := by
        simp [List.filter_cons, hcount]
      have h2 := hsub.filter (fun x => decide (x.count = e.count))
      rw [h1, filter_sortByCountDesc] at h2
      exact h2
    have hpf : List.Pairwise
        (fun e f : PaletteEntry =>
          firstIdx px (entryColor e) < firstIdx px (entryColor f))
        ((countColors px).filter (fun x => decide (x.count = e.count))) :=
      hL.filter _
    have := hpf.sublist hfilter
    exact (List.pairwise_cons.mp this).1 f (List.mem_singleton_self _)
  unfold getPalette
  rw [List.pairwise_map]
  exact hS.sublist (List.take_sublist _ _)

/-- C10: the colors returned by getPalette are pairwise distinct exact (R,G,B)
triples, and each of them is the color of at least one qualifying (non-filtered)
pixel of the input buffer. -/
theorem getPalette_distinct_and_sound (px : List Pixel) :
    List.Pairwise (fun c d => c ≠ d) (getPalette px) ∧
    ∀ c ∈ getPalette px, ∃ p ∈ px, skipPixel p = false ∧ rgbOf p = c := by
  constructor
  · have hnd : ((countColors px).map entryColor).Nodup :=
      nodup_map_entryColor_countColors px
    have hndS : ((sortByCountDesc (countColors px)).map entryColor).Nodup :=
      (((perm_sortByCountDesc (countColors px)).map entryColor).nodup_iff).mpr hnd
    have hsub : List.Sublist
        (((sortByCountDesc (countColors px)).take 10).map entryColor)
        ((sortByCountDesc (countColors px)).map entryColor) :=
      (List.take_sublist _ _).map entryColor
    have hout : (getPalette px).Nodup := hndS.sublist hsub
    exact hout
  · intro c hc
    have hmem := mem_getPalette_iff px c hc
    have hfreq := (mem_map_entryColor_countColors px c).mp hmem
    rcases (colorFreq_pos_iff px c).mp hfreq with ⟨p, hp, hs, hcol⟩
    exact ⟨p, hp, by simpa using hs, hcol⟩

/-- Claim C1, counterexample: in src/color_tabs.js a tab whose favicon bitmap yields
an empty palette (here a single near-white pixel) is skipped by the early return
`if (!palette || palette.length === 0) return;` instead of being styled with any
fallback accent color. -/
theorem setTabColorJS_skips_on_empty_palette :
    setTabColorJS simpleOps ⟨"https://a.example", false, some [⟨250, 250, 250, 255⟩]⟩
      (simpleOps.fromCss "var(--colorBg)") = none := by
  decide

/-- Claim C1 (amended): in the theme-driven variant part_000 a missing favicon or an
empty extracted palette leaves the theme's configured accent color in place as the
base accent and the tab is always styled (never skipped), while a non-empty palette
on a non-internal page replaces the base accent by the palette's first entry; in
src/color_tabs.js, by contrast, an empty extracted palette makes #setTabColor return
early and skip the tab. -/
theorem setTabColor000_fallback_and_no_skip {C : Type} (ops : ChromaOps C)
    (tab : TabInput) (w : Bool) (acc0 : C) (lim : ℚ) :
    ((tab.image = none ∨ (∃ bmp, tab.image = some bmp ∧ getPalette bmp = [])) →
      resolveBaseAccent ops (isInternalPage tab.url) tab.image acc0 = acc0) ∧
    (∀ bmp c rest, tab.image = some bmp → getPalette bmp = c :: rest →
      isInternalPage tab.url = false →
      resolveBaseAccent ops (isInternalPage tab.url) tab.image acc0 = ops.fromRGB c) ∧
    ((setTabColor000 ops tab w acc0 lim).accentSet.isSome ∨
      (setTabColor000 ops tab w acc0 lim).backgroundColor.isSome) := by
  refine ⟨?_, ?_, ?_⟩
  · intro h
    by_cases hint : isInternalPage tab.url
    · simp [resolveBaseAccent, hint]
    · rcases h with h | ⟨bmp, hbmp, hpal⟩
      · simp [resolveBaseAccent, hint, h]
      · simp [resolveBaseAccent, hint, hbmp, hpal]
  · intro bmp c rest hbmp hpal hint
    simp [resolveBaseAccent, hint, hbmp, hpal]
  · simp only [setTabColor000]
    split_ifs <;> simp

/-- Claim C1, witness for the amended statement: a missing favicon keeps the theme
accent, and a red one-pixel favicon on an ordinary https page replaces it by the
extracted red. -/
theorem setTabColor000_fallback_and_no_skip_witness :
    resolveBaseAccent simpleOps (isInternalPage "https://a.example") none
        (simpleOps.fromCss "#123") = simpleOps.fromCss "#123" ∧
    resolveBaseAccent simpleOps (isInternalPage "https://b.example")
        (some [⟨255, 0, 0, 255⟩]) (simpleOps.fromCss "#123") =
      simpleOps.fromRGB ⟨255, 0, 0⟩ :=
  ⟨(setTabColor000_fallback_and_no_skip simpleOps ⟨"https://a.example", false, none⟩
      false (simpleOps.fromCss "#123") 1).1 (Or.inl rfl),
   (setTabColor000_fallback_and_no_skip simpleOps
      ⟨"https://b.example", false, some [⟨255, 0, 0, 255⟩]⟩ false
      (simpleOps.fromCss "#123") 1).2.1 [⟨255, 0, 0, 255⟩] ⟨255, 0, 0⟩ [] rfl
      (by decide) (by decide)⟩

/-- Claim C5, counterexample: the saturation remap of src/color_tabs.js does not set
the new saturation to the current saturation times the limit: on a fully saturated
color it produces saturation 1/2 where the claimed formula at saturationLimit 1
keeps saturation 1. -/
theorem remapSaturationJS_not_saturation_times_limit :
    remapSaturationJS ⟨0, 1, 1/2⟩ ≠
      setHslS ⟨0, 1, 1/2⟩ (getHslS ⟨0, 1, 1/2⟩ * 1) := by
  intro h
  have h2 := congrArg HSL.satur h
  norm_num [remapSaturationJS, setHslS, getHslS, SATURATION] at h2

/-- Claim C5 (amended): in part_000 and part_001 the saturation remap sets the new
HSL saturation to the current saturation multiplied by the saturation limit, leaves
the color unchanged at limit 1 and fully desaturates at limit 0; in color_tabs.js
the saturation is instead set to the fixed constant SATURATION = 0.5 regardless of
the current saturation. -/
theorem remapSaturation_times_limit (c : HSL) (limit : ℚ)
    (_h0 : 0 ≤ limit) (_h1 : limit ≤ 1) :
    getHslS (remapSaturation c limit) = getHslS c * limit ∧
    remapSaturation c 1 = c ∧
    getHslS (remapSaturation c 0) = 0 ∧
    getHslS (remapSaturationJS c) = SATURATION := by
  refine ⟨rfl, ?_, ?_, rfl⟩
  · simp [remapSaturation, setHslS, getHslS, mul_one]
  · simp [remapSaturation, setHslS, getHslS]

/-- Claim C5, witness: at saturation 4/5 and limit 1/2 (a limit inside [0,1]) the
remapped saturation is 4/5 times 1/2. -/
theorem remapSaturation_times_limit_witness :
    (0:ℚ) ≤ 1/2 ∧ (1/2:ℚ) ≤ 1 ∧
    getHslS (remapSaturation ⟨0, 4/5, 1/2⟩ (1/2)) = (4/5 : ℚ) * (1/2) :=
  ⟨by norm_num, by norm_num,
    (remapSaturation_times_limit ⟨0, 4/5, 1/2⟩ (1/2) (by norm_num) (by norm_num)).1⟩

/-- Claim C6: brightness classification is a function of the relative luminance alone
with the fixed threshold 0.4 = 2/5: luminance above the threshold yields the pure
black foreground, luminance at or below it yields the pure white foreground. -/
theorem foreground_by_luminance (lum : ℚ) :
    (2/5 < lum → foregroundOf lum = BLACK) ∧
    (lum ≤ 2/5 → foregroundOf lum = WHITE) := by
  constructor
  · intro h
    simp [foregroundOf, isBrightOf, h]
  · intro h
    have hnb : ¬ (2/5 : ℚ) < lum := not_lt.mpr h
    simp [foregroundOf, isBrightOf, hnb]

/-- Claim C6, witness: luminance 1/2 (above 0.4) gives black, luminance 21/100 (the
approximate luminance of pure red, below 0.4) gives white. -/
theorem foreground_by_luminance_witness :
    ((2:ℚ)/5 < 1/2 ∧ foregroundOf (1/2) = BLACK) ∧
    ((21:ℚ)/100 ≤ 2/5 ∧ foregroundOf (21/100) = WHITE) :=
  ⟨⟨by norm_num, (foreground_by_luminance (1/2)).1 (by norm_num)⟩,
   ⟨by norm_num, (foreground_by_luminance (21/100)).2 (by norm_num)⟩⟩

/-- Claim C7: part_000 gives every inactive internal-page tab the neutral pair
var(--colorBgDark) / var(--colorFg) and never an extracted color; but in part_001
the same chrome:// URL is not detected (its #isInternalPage lacks a return statement
and always yields a falsy undefined), so an inactive chrome://settings tab with a
red one-pixel favicon is styled with the extracted favicon color instead of the
neutral pair. -/
theorem internal_page_neutral_in_part000_but_not_part001 :
    (∀ {C : Type} (ops : ChromaOps C) (tab : TabInput) (w : Bool) (acc0 : C) (lim : ℚ),
        isInternalPage tab.url = true → tab.active = false →
        setTabColor000 ops tab w acc0 lim =
          { accentSet := none
            backgroundColor := some (some "var(--colorBgDark)")
            textColor := some (some "var(--colorFg)") }) ∧
    isInternalPage "chrome://settings" = true ∧
    isInternalPage001 "chrome://settings" = false ∧
    setTabColor001 simpleOps ⟨"chrome://settings", false, some [⟨255, 0, 0, 255⟩]⟩
        (simpleOps.fromCss "#abc") 1 =
      some { accentSet := none
             backgroundColor := some (some "255,0,0")
             textColor := some (some "#000") } := by
  refine ⟨?_, by decide, rfl, ?_⟩
  · intro C ops tab w acc0 lim hint hact
    simp only [setTabColor000, hint, if_true, hact, Bool.false_eq_true, if_false]
  · have hpal : getPalette [⟨255, 0, 0, 255⟩] = [⟨255, 0, 0⟩] := by decide
    have hb : isBrightOf ((255 : ℕ) : ℚ) = true := by
      simp only [isBrightOf, decide_eq_true_eq]
      norm_num
    simp only [setTabColor001, isInternalPage001, Bool.not_false, if_true, hpal]
    simp only [simpleOps, mul_one]
    rw [hb]
    decide

/-- Claim C7, witness: an inactive vivaldi:// tab without a favicon gets the neutral
pair from part_000. -/
theorem internal_page_neutral_in_part000_witness :
    setTabColor000 simpleOps ⟨"vivaldi://settings", false, none⟩ true
        (simpleOps.fromCss "#abc") 1 =
      { accentSet := none
        backgroundColor := some (some "var(--colorBgDark)")
        textColor := some (some "var(--colorFg)") } :=
  internal_page_neutral_in_part000_but_not_part001.1 simpleOps
    ⟨"vivaldi://settings", false, none⟩ true (simpleOps.fromCss "#abc") 1
    (by decide) rfl

/-- Claim C8: when accent-from-page is disabled or tab transparency is enabled,
part_000's #colorTabs resets every tab in the strip: both inline style properties are
assigned null — cleared back to inherited styling — rather than set to any color
value. -/
theorem colorTabs000_clears_all_tabs {C : Type} (ops : ChromaOps C) (theme : Theme)
    (tabs : List TabInput)
    (h : theme.accentFromPage = false ∨ theme.transparencyTabs = true) :
    ∀ eff ∈ colorTabs000 ops theme tabs,
      eff = resetTabColor ∧
      eff.backgroundColor = some none ∧ eff.textColor = some none := by
  intro eff heff
  have hcond : (theme.accentFromPage && !theme.transparencyTabs) = false := by
    rcases h with h | h <;> simp [h]
  simp only [colorTabs000, hcond, Bool.false_eq_true, if_false] at heff
  rcases List.mem_map.mp heff with ⟨t, _, rfl⟩
  exact ⟨rfl, rfl, rfl⟩

/-- Claim C8, witness: with accent-from-page disabled, the single tab of a strip is
reset: both properties cleared to null. -/
theorem colorTabs000_clears_all_tabs_witness :
    (resetTabColor : TabEffect SimpleColor) = resetTabColor ∧
    (resetTabColor : TabEffect SimpleColor).backgroundColor = some none ∧
    (resetTabColor : TabEffect SimpleColor).textColor = some none :=
  colorTabs000_clears_all_tabs simpleOps ⟨false, false, false, "#123", 1⟩
    [⟨"https://a.example", true, none⟩] (Or.inl rfl) resetTabColor (by decide)

